import Mathlib

/-!
Verification of the chunk-splitting core of `src/word_split.py`
(`split_word_from_url`).

The embedding models the function from the point where the document's
paragraph texts have been extracted (line 37 of the source onwards):
the document is a `List String` of paragraph texts, and the result is the
list of fragment records the Python function returns.

Python-specific semantics modelled explicitly:
* Python slices `l[a:b]` (including negative indices) are `pySliceList`.
* `str.strip()` is `pyStrip` (drop whitespace at both ends, over `List Char`).
* `str.rfind(ch)` is `pyRfind`, returning `-1` when absent.
* Python `//` is `Int.fdiv` (floor division).  A `ZeroDivisionError` is
  raised by Python when a divisor is zero and is caught by the
  function's top-level `except`, producing a single error fragment whose
  text embeds CPython's message; the dispatch models this with explicit
  zero-divisor guards at exactly the program points where the divisions
  execute.
* The snapping test `last_newline > start_idx + chunk_size * 0.8`
  compares an integer with an IEEE-754 double.  For `|chunk_size| < 2^50`
  the double comparison decides exactly as the rational comparison
  `5 * last_newline > 5 * start_idx + 4 * chunk_size` (when `chunk_size`
  is a multiple of 5 the product `chunk_size * 0.8` rounds to the exact
  integer because the relative error of the literal `0.8` is `2^-54`;
  otherwise the exact value is at distance at least `0.2` from every
  integer while the floating-point error is far smaller), so the
  embedding uses the integer form.
-/

set_option maxRecDepth 400000

namespace WordSplit

/-- Python slice `xs[a:b]` with step 1: negative indices count from the
end, and both bounds are clamped to `[0, len]`. -/
def pySliceList {α : Type*} (xs : List α) (a b : Int) : List α :=
  (xs.drop (if a < 0 then max 0 ((xs.length : Int) + a) else min a xs.length).toNat).take
    ((if b < 0 then max 0 ((xs.length : Int) + b) else min b xs.length).toNat -
      (if a < 0 then max 0 ((xs.length : Int) + a) else min a xs.length).toNat)

/-- Python `str.strip()` on the character list: remove leading and
trailing whitespace. -/
def pyStrip (l : List Char) : List Char :=
  ((l.dropWhile Char.isWhitespace).reverse.dropWhile Char.isWhitespace).reverse

/-- Python `str.rfind(ch)`: index of the last occurrence, `-1` if absent. -/
def pyRfind (l : List Char) (ch : Char) : Int :=
  match l with
  | [] => -1
  | c :: rest =>
    if pyRfind rest ch ≥ 0 then pyRfind rest ch + 1
    else if c = ch then 0 else -1

/-- Python `str.split('\n')`: split on every newline, keeping empty parts. -/
def splitOnNL : List Char → List (List Char)
  | [] => [[]]
  | c :: rest =>
    if c = '\n' then [] :: splitOnNL rest
    else
      match splitOnNL rest with
      | [] => [[c]]
      | h :: t => (c :: h) :: t

/-- Python `"\n".join(...)` at the character-list level. -/
def joinNLChars : List (List Char) → List Char
  | [] => []
  | [l] => l
  | l :: ls => l ++ '\n' :: joinNLChars ls

/-- Sum of the lengths of a list of lines, as an integer. -/
def sumLens (ls : List (List Char)) : Int :=
  (ls.map (fun l => (l.length : Int))).sum

/-- Python `"\n".join(...)` on strings. -/
def joinNL : List String → String
  | [] => ""
  | [s] => s
  | s :: ss => s ++ "\n" ++ joinNL ss

/-- Python `str.lower()`.  Lean's `Char.toLower` performs the same
ASCII-range lowering; for the dispatch comparisons against the three
ASCII mode names this agrees with Python's Unicode lowering (no
non-ASCII character lowercases to a plain letter occurring in
`paragraph`, `character` or `line`). -/
def pyLower (s : String) : String :=
  String.mk (s.data.map Char.toLower)

/-- One fragment record produced by the splitter.  Optional fields model
dictionary keys that some fragments omit. -/
structure Fragment where
  id : Int
  text : String
  start : Option Int
  end_ : Option Int
  total : Option Int
  mode : Option String
  size : Option Int
  error : Option Bool
deriving DecidableEq

/-- The fragment returned for an empty / whitespace-only document
(`{"id": 0, "text": "文档无有效内容", "start": 0, "end": 0}`,
source lines 42, 80, 125, 132). -/
def noContentFragment : Fragment :=
  ⟨0, "文档无有效内容", some 0, some 0, none, none, none, none⟩

/-- The fragment produced when Python's integer division by zero is
caught by the top-level handler (source line 185). -/
def zeroDivFragment : Fragment :=
  ⟨0, "处理失败: integer division or modulo by zero", none, none, none, none, none, some true⟩

/-- Prefix of the unsupported-mode error message (source line 180). -/
def invalidModePre : String := "不支持的切分模式: "

/-- Suffix of the unsupported-mode error message (source line 180). -/
def invalidModePost : String := "。请使用 'paragraph', 'character' 或 'line'。"

/-- The error fragment returned for an unrecognized mode string. -/
def invalidModeFragment (mode : String) : Fragment :=
  ⟨0, invalidModePre ++ mode ++ invalidModePost, none, none, none, none, none, some true⟩

/-- `parts = max(1, (total - overlap) // (chunk_size - overlap))`
(source lines 48 and 86). -/
def strideParts (total chunk_size overlap : Int) : Int :=
  max 1 ((total - overlap).fdiv (chunk_size - overlap))

/-- The `i`-th stride fragment of paragraph mode (source lines 50-62):
`start_idx = i * (chunk_size - overlap)`,
`end_idx = min(start_idx + chunk_size, N)`. -/
def paraFrag (paragraphs : List String) (chunk_size overlap : Int) (i : Nat) : Fragment :=
  ⟨(i : Int) + 1,
    joinNL (pySliceList paragraphs ((i : Int) * (chunk_size - overlap))
      (min ((i : Int) * (chunk_size - overlap) + chunk_size) paragraphs.length)),
    some ((i : Int) * (chunk_size - overlap) + 1),
    some (min ((i : Int) * (chunk_size - overlap) + chunk_size) paragraphs.length),
    some paragraphs.length, some "paragraph",
    some (min ((i : Int) * (chunk_size - overlap) + chunk_size) paragraphs.length -
      (i : Int) * (chunk_size - overlap)), none⟩

/-- The paragraph-mode stride fragments (the `for i in range(parts)` loop). -/
def paraFrags (paragraphs : List String) (chunk_size overlap : Int) : List Fragment :=
  (List.range (strideParts paragraphs.length chunk_size overlap).toNat).map
    (paraFrag paragraphs chunk_size overlap)

/-- The loop's final `end_idx` in paragraph mode (its value after
iteration `parts - 1`), used by the remainder test at line 65. -/
def paraLastEnd (N chunk_size overlap : Int) : Int :=
  min ((strideParts N chunk_size overlap - 1) * (chunk_size - overlap) + chunk_size) N

/-- The paragraph-mode remainder fragment (source lines 66-74). -/
def paraRemFrag (paragraphs : List String) (chunk_size overlap : Int) : Fragment :=
  ⟨((paraFrags paragraphs chunk_size overlap).length : Int) + 1,
    joinNL (pySliceList paragraphs (paraLastEnd paragraphs.length chunk_size overlap)
      paragraphs.length),
    some (paraLastEnd paragraphs.length chunk_size overlap + 1),
    some paragraphs.length, some paragraphs.length, some "paragraph",
    some ((paragraphs.length : Int) - paraLastEnd paragraphs.length chunk_size overlap), none⟩

/-- Paragraph mode, source lines 44-74.  Assumes
`chunk_size - overlap ≠ 0` (the divisor guard lives in the dispatch). -/
def paragraphChunks (paragraphs : List String) (chunk_size overlap : Int) : List Fragment :=
  if paraLastEnd paragraphs.length chunk_size overlap < (paragraphs.length : Int) then
    paraFrags paragraphs chunk_size overlap ++ [paraRemFrag paragraphs chunk_size overlap]
  else paraFrags paragraphs chunk_size overlap

/-- Character mode `end_idx` for loop index `i`, including the
newline-snapping refinement (source lines 90-97). -/
def charEnd (cs : List Char) (chunk_size overlap : Int) (i : Int) : Int :=
  if min (i * (chunk_size - overlap) + chunk_size) cs.length < (cs.length : Int) then
    if 5 * pyRfind (pySliceList cs 0 (min (i * (chunk_size - overlap) + chunk_size) cs.length)) '\n' >
        5 * (i * (chunk_size - overlap)) + 4 * chunk_size then
      pyRfind (pySliceList cs 0 (min (i * (chunk_size - overlap) + chunk_size) cs.length)) '\n'
    else min (i * (chunk_size - overlap) + chunk_size) cs.length
  else min (i * (chunk_size - overlap) + chunk_size) cs.length

/-- The `i`-th stride fragment of character mode (source lines 99-107). -/
def charFrag (cs : List Char) (chunk_size overlap : Int) (i : Nat) : Fragment :=
  ⟨(i : Int) + 1,
    String.mk (pySliceList cs ((i : Int) * (chunk_size - overlap))
      (charEnd cs chunk_size overlap (i : Int))),
    some ((i : Int) * (chunk_size - overlap)),
    some (charEnd cs chunk_size overlap (i : Int)),
    some cs.length, some "character",
    some (charEnd cs chunk_size overlap (i : Int) - (i : Int) * (chunk_size - overlap)), none⟩

/-- The character-mode stride fragments. -/
def charFrags (cs : List Char) (chunk_size overlap : Int) : List Fragment :=
  (List.range (strideParts cs.length chunk_size overlap).toNat).map
    (charFrag cs chunk_size overlap)

/-- The loop's final (possibly snapped) `end_idx` in character mode,
used by the remainder test at line 110. -/
def charLastEnd (cs : List Char) (chunk_size overlap : Int) : Int :=
  charEnd cs chunk_size overlap (strideParts cs.length chunk_size overlap - 1)

/-- The character-mode remainder fragment (source lines 111-119). -/
def charRemFrag (cs : List Char) (chunk_size overlap : Int) : Fragment :=
  ⟨((charFrags cs chunk_size overlap).length : Int) + 1,
    String.mk (pySliceList cs (charLastEnd cs chunk_size overlap) cs.length),
    some (charLastEnd cs chunk_size overlap),
    some cs.length, some cs.length, some "character",
    some ((cs.length : Int) - charLastEnd cs chunk_size overlap), none⟩

/-- Character mode, source lines 82-119. -/
def charChunks (cs : List Char) (chunk_size overlap : Int) : List Fragment :=
  if charLastEnd cs chunk_size overlap < (cs.length : Int) then
    charFrags cs chunk_size overlap ++ [charRemFrag cs chunk_size overlap]
  else charFrags cs chunk_size overlap

/-- Mutable state of the line-mode loop.  `divided` records whether the
overlap division (source line 155) has executed, which is where Python
raises when `chunk_size = 0`. -/
structure LineState where
  chunks : List Fragment
  current_chunk : List (List Char)
  current_length : Int
  divided : Bool
deriving DecidableEq

/-- The fragment emitted when the line-mode loop closes the current
chunk at line index `i` (source lines 144-152). -/
def closeFrag (total : Int) (st : LineState) (i : Nat) : Fragment :=
  ⟨(st.chunks.length : Int) + 1, String.mk (joinNLChars st.current_chunk),
    some ((i : Int) - st.current_chunk.length), some ((i : Int) - 1),
    some total, some "line", some st.current_length, none⟩

/-- `overlap_lines = max(1, len(current_chunk) * overlap // chunk_size)`
(source line 155). -/
def carryCount (chunk_size overlap : Int) (st : LineState) : Int :=
  max 1 ((st.current_chunk.length * overlap).fdiv chunk_size)

/-- Closing the current chunk: emit `closeFrag` and keep the overlap
tail `current_chunk[-overlap_lines:]` (source lines 144-161). -/
def lineClose (chunk_size overlap total : Int) (st : LineState) (i : Nat) : LineState :=
  if carryCount chunk_size overlap st > 0 ∧ (st.chunks ++ [closeFrag total st i]).length > 0 then
    ⟨st.chunks ++ [closeFrag total st i],
      pySliceList st.current_chunk (-carryCount chunk_size overlap st) st.current_chunk.length,
      sumLens (pySliceList st.current_chunk (-carryCount chunk_size overlap st)
        st.current_chunk.length),
      true⟩
  else ⟨st.chunks ++ [closeFrag total st i], [], 0, true⟩

/-- Appending the current line to the chunk (source lines 164-165). -/
def lineAppend (line : List Char) (st : LineState) : LineState :=
  ⟨st.chunks, st.current_chunk ++ [line], st.current_length + (line.length : Int), st.divided⟩

/-- One iteration of the line-mode loop (source lines 139-165) for
`line` at index `i`. -/
def lineStep (chunk_size overlap total : Int) (st : LineState) (i : Nat)
    (line : List Char) : LineState :=
  if st.current_length + (line.length : Int) > chunk_size ∧ st.current_chunk ≠ [] then
    lineAppend line (lineClose chunk_size overlap total st i)
  else lineAppend line st

/-- The line-mode loop over the enumerated non-empty lines. -/
def lineLoop (chunk_size overlap total : Int) : Nat → List (List Char) → LineState → LineState
  | _, [], st => st
  | i, line :: rest, st =>
    lineLoop chunk_size overlap total (i + 1) rest (lineStep chunk_size overlap total st i line)

/-- Emission of the final fragment after the loop (source lines 167-177). -/
def lineFinal (total : Int) (st : LineState) : List Fragment :=
  if st.current_chunk ≠ [] then
    st.chunks ++ [⟨(st.chunks.length : Int) + 1, String.mk (joinNLChars st.current_chunk),
      some (total - st.current_chunk.length), some (total - 1),
      some total, some "line", some st.current_length, none⟩]
  else st.chunks

/-- Line mode over the non-empty lines: the fragment list together with
the flag telling whether the overlap division ever executed. -/
def lineChunks (non_empty_lines : List (List Char)) (chunk_size overlap : Int) :
    List Fragment × Bool :=
  (lineFinal non_empty_lines.length
      (lineLoop chunk_size overlap non_empty_lines.length 0 non_empty_lines ⟨[], [], 0, false⟩),
    (lineLoop chunk_size overlap non_empty_lines.length 0 non_empty_lines ⟨[], [], 0, false⟩).divided)

/-- The filtered, stripped paragraph list of paragraph mode (source line 39). -/
def paraUnits (docParagraphs : List String) : List String :=
  (docParagraphs.filter (fun p => pyStrip p.data ≠ [])).map
    (fun p => String.mk (pyStrip p.data))

/-- `full_text = "\n".join(p.text for p in doc.paragraphs)`
(source lines 78 and 123). -/
def charUnits (docParagraphs : List String) : List Char :=
  joinNLChars (docParagraphs.map String.data)

/-- The non-empty lines of the joined text (source lines 128-129). -/
def lineUnits (docParagraphs : List String) : List (List Char) :=
  (splitOnNL (charUnits docParagraphs)).filter (fun l => pyStrip l ≠ [])

/-- The splitting core of `split_word_from_url` (source lines 37-182),
given the extracted paragraph texts.  Faithful including Python's
`ZeroDivisionError` paths, which the enclosing `try` turns into
`zeroDivFragment`. -/
def split_word_from_doc (docParagraphs : List String) (chunk_size overlap : Int)
    (mode : String) : List Fragment :=
  if pyLower mode = "paragraph" then
    if paraUnits docParagraphs = [] then [noContentFragment]
    else if chunk_size - overlap = 0 then [zeroDivFragment]
    else paragraphChunks (paraUnits docParagraphs) chunk_size overlap
  else if pyLower mode = "character" then
    if pyStrip (charUnits docParagraphs) = [] then [noContentFragment]
    else if chunk_size - overlap = 0 then [zeroDivFragment]
    else charChunks (charUnits docParagraphs) chunk_size overlap
  else if pyLower mode = "line" then
    if pyStrip (charUnits docParagraphs) = [] then [noContentFragment]
    else if lineUnits docParagraphs = [] then [noContentFragment]
    else if chunk_size = 0 ∧ (lineChunks (lineUnits docParagraphs) chunk_size overlap).2 = true then
      [zeroDivFragment]
    else (lineChunks (lineUnits docParagraphs) chunk_size overlap).1
  else [invalidModeFragment mode]

/-- Unit index `j` lies in a paragraph-mode fragment's range
(`start` and `end` are 1-based inclusive). -/
def coversPara (f : Fragment) (j : Int) : Bool :=
  match f.start, f.end_ with
  | some s, some e => decide (s - 1 ≤ j) && decide (j < e)
  | _, _ => false

/-- Character offset `j` lies in a character-mode fragment's half-open
range `[start, end)` (the span of its text). -/
def coversChar (f : Fragment) (j : Int) : Bool :=
  match f.start, f.end_ with
  | some s, some e => decide (s ≤ j) && decide (j < e)
  | _, _ => false

/-- Line index `j` lies in a line-mode fragment's inclusive range
`[start, end]`. -/
def coversLine (f : Fragment) (j : Int) : Bool :=
  match f.start, f.end_ with
  | some s, some e => decide (s ≤ j) && decide (j ≤ e)
  | _, _ => false

/-! ### Helper lemmas -/

lemma mem_of_getElem?_eq {α : Type*} {l : List α} {i : Nat} {a : α}
    (h : l[i]? = some a) : a ∈ l := by
  rw [List.getElem?_eq_some_iff] at h
  obtain ⟨hi, rfl⟩ := h
  exact List.getElem_mem hi

lemma pySliceList_zero {α : Type*} (xs : List α) (e : Int) (he : 0 ≤ e) :
    pySliceList xs 0 e = xs.take e.toNat := by
  have hn : (0 : Int) ≤ (xs.length : Int) := Int.natCast_nonneg _
  unfold pySliceList
  rw [if_neg (by omega), if_neg (by omega), min_eq_left hn]
  simp only [Int.toNat_zero, List.drop_zero, Nat.sub_zero]
  rcases le_or_lt e (xs.length : Int) with h | h
  · rw [min_eq_left h]
  · rw [min_eq_right h.le]
    rw [Int.toNat_natCast, List.take_length, List.take_of_length_le (by omega)]

lemma pySliceList_neg_len {α : Type*} (xs : List α) (m : Int) (hm : 0 < m) :
    ∃ d : Nat, d ≤ xs.length ∧ pySliceList xs (-m) xs.length = xs.drop d := by
  refine ⟨(max 0 ((xs.length : Int) + -m)).toNat, by omega, ?_⟩
  have h1 : (-m < 0) := by omega
  have h2 : ¬((xs.length : Int) < 0) := by omega
  unfold pySliceList
  rw [if_pos h1, if_neg h2, min_self, Int.toNat_natCast]
  apply List.take_of_length_le
  rw [List.length_drop]

lemma pyRfind_of_not_mem {l : List Char} {ch : Char} (h : ch ∉ l) : pyRfind l ch = -1 := by
  induction l with
  | nil => rfl
  | cons c rest ih =>
    simp only [List.mem_cons, not_or] at h
    rw [pyRfind, ih h.2, if_neg (by omega), if_neg (fun hc => h.1 hc.symm)]

lemma pyRfind_lt_length (l : List Char) (ch : Char) : pyRfind l ch < (l.length : Int) := by
  induction l with
  | nil => simp [pyRfind]
  | cons c rest ih =>
    rw [pyRfind]
    simp only [List.length_cons]
    split
    · push_cast; omega
    · split <;> (push_cast; omega)

lemma sumLens_append (l1 l2 : List (List Char)) :
    sumLens (l1 ++ l2) = sumLens l1 + sumLens l2 := by
  simp [sumLens]

lemma sumLens_nonneg (l : List (List Char)) : 0 ≤ sumLens l := by
  apply List.sum_nonneg
  intro x hx
  simp only [List.mem_map] at hx
  obtain ⟨y, _, rfl⟩ := hx
  exact Int.natCast_nonneg _

lemma length_le_sumLens {x : List Char} {l : List (List Char)} (h : x ∈ l) :
    (x.length : Int) ≤ sumLens l := by
  apply List.single_le_sum (l := l.map (fun l => (l.length : Int)))
  · intro y hy
    simp only [List.mem_map] at hy
    obtain ⟨z, _, rfl⟩ := hy
    exact Int.natCast_nonneg _
  · exact List.mem_map_of_mem _ h

lemma one_le_strideParts (N c o : Int) : 1 ≤ strideParts N c o :=
  le_max_left _ _

lemma length_paraFrags (ps : List String) (c o : Int) :
    (paraFrags ps c o).length = (strideParts ps.length c o).toNat := by
  simp [paraFrags]

lemma paragraphChunks_getElem?_lt (ps : List String) (c o : Int) (i : Nat)
    (hi : i < (strideParts ps.length c o).toNat) :
    (paragraphChunks ps c o)[i]? = some (paraFrag ps c o i) := by
  have hfr : (paraFrags ps c o)[i]? = some (paraFrag ps c o i) := by
    rw [paraFrags, List.getElem?_map, List.getElem?_range hi, Option.map_some']
  unfold paragraphChunks
  split
  · rw [List.getElem?_append_left (by rw [length_paraFrags]; exact hi)]
    exact hfr
  · exact hfr

lemma length_charFrags (cs : List Char) (c o : Int) :
    (charFrags cs c o).length = (strideParts cs.length c o).toNat := by
  simp [charFrags]

lemma charChunks_getElem?_lt (cs : List Char) (c o : Int) (i : Nat)
    (hi : i < (strideParts cs.length c o).toNat) :
    (charChunks cs c o)[i]? = some (charFrag cs c o i) := by
  have hfr : (charFrags cs c o)[i]? = some (charFrag cs c o i) := by
    rw [charFrags, List.getElem?_map, List.getElem?_range hi, Option.map_some']
  unfold charChunks
  split
  · rw [List.getElem?_append_left (by rw [length_charFrags]; exact hi)]
    exact hfr
  · exact hfr

/-- Dichotomy underlying coverage in the fixed-stride modes: every unit
index below the total is either inside stride fragment `i`'s nominal
range `[i*S, i*S + chunk_size)`, or at/after the last loop `end_idx`. -/
lemma stride_cases (c o N j : Int) (ho : 0 < o) (hoc : o < c) (hj0 : 0 ≤ j) (_hjN : j < N) :
    (∃ i : Nat, (i : Int) < strideParts N c o ∧
        (i : Int) * (c - o) ≤ j ∧ j < (i : Int) * (c - o) + c) ∨
      paraLastEnd N c o ≤ j := by
  by_cases hj : paraLastEnd N c o ≤ j
  · exact Or.inr hj
  · left
    push_neg at hj
    unfold paraLastEnd at hj
    have hS : 0 < c - o := by omega
    have hparts1 : 1 ≤ strideParts N c o := one_le_strideParts N c o
    have hq := Int.ediv_add_emod j (c - o)
    have hr0 : 0 ≤ j % (c - o) := Int.emod_nonneg j (by omega)
    have hrS : j % (c - o) < c - o := Int.emod_lt_of_pos j hS
    have hqle : (j / (c - o)) * (c - o) ≤ j := by linarith [mul_comm (j / (c - o)) (c - o)]
    have hqlt : j < (j / (c - o)) * (c - o) + (c - o) := by
      linarith [mul_comm (j / (c - o)) (c - o)]
    have hq0 : 0 ≤ j / (c - o) := Int.ediv_nonneg hj0 (by omega)
    have hjlt : j < (strideParts N c o - 1) * (c - o) + c :=
      lt_of_lt_of_le hj (min_le_left _ _)
    rcases le_or_lt (strideParts N c o - 1) (j / (c - o)) with hc1 | hc1
    · refine ⟨(strideParts N c o - 1).toNat, ?_, ?_, ?_⟩
      · rw [Int.toNat_of_nonneg (by omega)]; omega
      · rw [Int.toNat_of_nonneg (by omega)]
        calc (strideParts N c o - 1) * (c - o) ≤ (j / (c - o)) * (c - o) :=
              mul_le_mul_of_nonneg_right hc1 (by omega)
          _ ≤ j := hqle
      · rw [Int.toNat_of_nonneg (by omega)]
        exact hjlt
    · refine ⟨(j / (c - o)).toNat, ?_, ?_, ?_⟩
      · rw [Int.toNat_of_nonneg hq0]; omega
      · rw [Int.toNat_of_nonneg hq0]; exact hqle
      · rw [Int.toNat_of_nonneg hq0]; linarith

/-- Paragraph-mode coverage: every paragraph index lies in some
fragment's `[start - 1, end)` range. -/
lemma para_cover (ps : List String) (c o : Int) (ho : 0 < o) (hoc : o < c)
    (j : Int) (hj0 : 0 ≤ j) (hjN : j < (ps.length : Int)) :
    ∃ f ∈ paragraphChunks ps c o, coversPara f j = true := by
  rcases stride_cases c o ps.length j ho hoc hj0 hjN with ⟨i, hip, hle, hlt⟩ | hrem
  · refine ⟨paraFrag ps c o i, ?_, ?_⟩
    · apply mem_of_getElem?_eq (paragraphChunks_getElem?_lt ps c o i (by omega))
    · simp only [coversPara, paraFrag]
      rw [Bool.and_eq_true, decide_eq_true_iff, decide_eq_true_iff]
      omega
  · refine ⟨paraRemFrag ps c o, ?_, ?_⟩
    · unfold paragraphChunks
      rw [if_pos (by omega)]
      exact List.mem_append_right _ (List.mem_singleton_self _)
    · simp only [coversPara, paraRemFrag]
      rw [Bool.and_eq_true, decide_eq_true_iff, decide_eq_true_iff]
      omega

lemma pySliceList_zero_subset {α : Type*} {cs : List α} {e : Int} (he : 0 ≤ e)
    {x : α} (hx : x ∈ pySliceList cs 0 e) : x ∈ cs := by
  rw [pySliceList_zero cs e he] at hx
  exact List.mem_of_mem_take hx

/-- Without a newline in the text, the snapping branch never fires. -/
lemma charEnd_no_newline {cs : List Char} (c o : Int) (hnl : '\n' ∉ cs) {i : Int}
    (hi : 0 ≤ i * (c - o)) (hc : 0 < c) :
    charEnd cs c o i = min (i * (c - o) + c) cs.length := by
  have hfind : pyRfind (pySliceList cs 0 (min (i * (c - o) + c) cs.length)) '\n' = -1 := by
    apply pyRfind_of_not_mem
    intro hmem
    exact hnl (pySliceList_zero_subset (by omega) hmem)
  unfold charEnd
  rw [hfind]
  split
  · rw [if_neg (by omega)]
  · rfl

/-- Character-mode coverage for newline-free text: every character
offset lies in some fragment's `[start, end)` range. -/
lemma char_cover_noNL (cs : List Char) (c o : Int) (ho : 0 < o) (hoc : o < c)
    (hnl : '\n' ∉ cs) (j : Int) (hj0 : 0 ≤ j) (hjN : j < (cs.length : Int)) :
    ∃ f ∈ charChunks cs c o, coversChar f j = true := by
  have hc : 0 < c := by omega
  have hlast : charLastEnd cs c o = paraLastEnd cs.length c o := by
    unfold charLastEnd paraLastEnd
    rw [charEnd_no_newline c o hnl (mul_nonneg (by linarith [one_le_strideParts cs.length c o]) (by omega)) hc]
  rcases stride_cases c o cs.length j ho hoc hj0 hjN with ⟨i, hip, hle, hlt⟩ | hrem
  · refine ⟨charFrag cs c o i, ?_, ?_⟩
    · apply mem_of_getElem?_eq (charChunks_getElem?_lt cs c o i (by omega))
    · simp only [coversChar, charFrag]
      rw [charEnd_no_newline c o hnl (mul_nonneg (Int.natCast_nonneg i) (by omega)) hc]
      rw [Bool.and_eq_true, decide_eq_true_iff, decide_eq_true_iff]
      omega
  · refine ⟨charRemFrag cs c o, ?_, ?_⟩
    · unfold charChunks
      rw [if_pos (by omega)]
      exact List.mem_append_right _ (List.mem_singleton_self _)
    · simp only [coversChar, charRemFrag]
      rw [Bool.and_eq_true, decide_eq_true_iff, decide_eq_true_iff]
      omega

/-! ### Line-mode invariant -/

/-- A line-mode fragment is the newline-join of a contiguous block of
`len ≥ 1` source lines ending before index `k`, and its fields record
exactly that block: `start` is the index of its first line, `end` the
index of its last line, `size` the sum of its lines' lengths. -/
def FragOK (ls : List (List Char)) (total : Int) (k : Nat) (f : Fragment) : Prop :=
  ∃ a len : Nat, 1 ≤ len ∧ a + len ≤ k ∧
    f.text = String.mk (joinNLChars ((ls.drop a).take len)) ∧
    f.start = some (a : Int) ∧
    f.end_ = some ((a : Int) + (len : Int) - 1) ∧
    f.total = some total ∧ f.mode = some "line" ∧
    f.size = some (sumLens ((ls.drop a).take len)) ∧ f.error = none

/-- Invariant after the line-mode loop has consumed the first `k` lines:
the current chunk is a contiguous block of lines ending at index `k`,
`current_length` is its length sum, all emitted fragments are proper
blocks, and all line indices except the last `fr` consumed ones are
covered by an emitted fragment. -/
def LineInv (ls : List (List Char)) (total : Int) (k : Nat) (st : LineState) : Prop :=
  (∃ a : Nat, a + st.current_chunk.length = k ∧
      st.current_chunk = (ls.drop a).take st.current_chunk.length) ∧
  st.current_length = sumLens st.current_chunk ∧
  (∀ f ∈ st.chunks, FragOK ls total k f) ∧
  ∃ fr : Nat, fr ≤ st.current_chunk.length ∧
    ∀ j : Nat, j + fr < k → ∃ f ∈ st.chunks, coversLine f (j : Int) = true

lemma sumLens_singleton (l : List Char) : sumLens [l] = (l.length : Int) := by
  simp [sumLens]

lemma slice_take_append {α : Type*} (ls : List α) (a len : Nat) (x : α)
    (hx : ls[a + len]? = some x) :
    (ls.drop a).take (len + 1) = (ls.drop a).take len ++ [x] := by
  rw [List.take_succ, List.getElem?_drop, hx]
  rfl

lemma FragOK_mono {ls : List (List Char)} {total : Int} {k : Nat} {f : Fragment}
    (h : FragOK ls total k f) : FragOK ls total (k + 1) f := by
  obtain ⟨a, len, h1, h2, h3⟩ := h
  exact ⟨a, len, h1, by omega, h3⟩

lemma lineStep_inv (ls : List (List Char)) (c o : Int) (k : Nat) (line : List Char)
    (hk : ls[k]? = some line) (st : LineState)
    (h : LineInv ls ls.length k st) :
    LineInv ls ls.length (k + 1) (lineStep c o ls.length st k line) := by
  obtain ⟨⟨a, ha, hsl⟩, hlen, hall, ⟨fr, hfrle, hcov⟩⟩ := h
  have hkl : k < ls.length := by
    rw [List.getElem?_eq_some_iff] at hk
    exact hk.1
  unfold lineStep
  split
  case isTrue hcond =>
    obtain ⟨hgt, hne⟩ := hcond
    have hm : 0 < carryCount c o st := lt_of_lt_of_le one_pos (le_max_left _ _)
    have hchne : 0 < st.current_chunk.length := List.length_pos.mpr hne
    obtain ⟨d, hd, hcc⟩ := pySliceList_neg_len st.current_chunk (carryCount c o st) hm
    have hccd : (pySliceList st.current_chunk (-carryCount c o st)
        st.current_chunk.length) = (ls.drop (a + d)).take (st.current_chunk.length - d) := by
      conv_lhs => rw [hcc, hsl]
      rw [List.drop_take, List.drop_drop]
    have hclose : FragOK ls ls.length (k + 1) (closeFrag ls.length st k) := by
      refine ⟨a, st.current_chunk.length, hchne, by omega, ?_, ?_, ?_, rfl, rfl, ?_, rfl⟩
      · exact congrArg (fun l => String.mk (joinNLChars l)) hsl
      · show some ((k : Int) - st.current_chunk.length) = some (a : Int)
        congr 1
        omega
      · show some ((k : Int) - 1) = some ((a : Int) + (st.current_chunk.length : Int) - 1)
        congr 1
        omega
      · show some st.current_length = some (sumLens ((ls.drop a).take st.current_chunk.length))
        rw [hlen]
        exact congrArg (fun l => some (sumLens l)) hsl
    unfold lineClose
    rw [if_pos ⟨hm, by simp⟩]
    unfold lineAppend
    refine ⟨⟨a + d, ?_, ?_⟩, ?_, ?_, ⟨1, ?_, ?_⟩⟩
    · show a + d + (pySliceList st.current_chunk (-carryCount c o st)
        st.current_chunk.length ++ [line]).length = k + 1
      rw [List.length_append, hcc, List.length_drop]
      simp only [List.length_singleton]
      omega
    · show pySliceList st.current_chunk (-carryCount c o st) st.current_chunk.length ++ [line] =
        (ls.drop (a + d)).take ((pySliceList st.current_chunk (-carryCount c o st)
          st.current_chunk.length ++ [line]).length)
      rw [hccd, List.length_append, List.length_take]
      simp only [List.length_singleton, List.length_drop]
      have hmin : min (st.current_chunk.length - d) (ls.length - (a + d)) =
          st.current_chunk.length - d := by omega
      rw [hmin, slice_take_append ls (a + d) (st.current_chunk.length - d) line
        (by rw [show a + d + (st.current_chunk.length - d) = k from by omega]; exact hk)]
    · show sumLens (pySliceList st.current_chunk (-carryCount c o st)
          st.current_chunk.length) + (line.length : Int) =
        sumLens (pySliceList st.current_chunk (-carryCount c o st)
          st.current_chunk.length ++ [line])
      rw [sumLens_append, sumLens_singleton]
    · intro f hf
      rcases List.mem_append.mp hf with hf | hf
      · exact FragOK_mono (hall f hf)
      · rw [List.mem_singleton] at hf
        exact hf ▸ hclose
    · show 1 ≤ (pySliceList st.current_chunk (-carryCount c o st)
        st.current_chunk.length ++ [line]).length
      rw [List.length_append]
      simp
    · intro j hj
      rcases lt_or_le (j + fr) k with hjf | hjf
      · obtain ⟨f, hmem, hc⟩ := hcov j hjf
        exact ⟨f, List.mem_append_left _ hmem, hc⟩
      · refine ⟨closeFrag ls.length st k,
          List.mem_append_right _ (List.mem_singleton_self _), ?_⟩
        simp only [coversLine, closeFrag]
        rw [Bool.and_eq_true, decide_eq_true_iff, decide_eq_true_iff]
        omega
  case isFalse =>
    unfold lineAppend
    refine ⟨⟨a, ?_, ?_⟩, ?_, ?_, ⟨fr + 1, ?_, ?_⟩⟩
    · show a + (st.current_chunk ++ [line]).length = k + 1
      rw [List.length_append]
      simp only [List.length_singleton]
      omega
    · show st.current_chunk ++ [line] = (ls.drop a).take ((st.current_chunk ++ [line]).length)
      rw [List.length_append]
      simp only [List.length_singleton]
      rw [slice_take_append ls a st.current_chunk.length line
        (by rw [show a + st.current_chunk.length = k from ha]; exact hk), ← hsl]
    · show st.current_length + (line.length : Int) = sumLens (st.current_chunk ++ [line])
      rw [sumLens_append, sumLens_singleton, hlen]
    · intro f hf
      exact FragOK_mono (hall f hf)
    · show fr + 1 ≤ (st.current_chunk ++ [line]).length
      rw [List.length_append]
      simp only [List.length_singleton]
      omega
    · intro j hj
      exact hcov j (by omega)

lemma lineLoop_inv (ls : List (List Char)) (c o : Int) :
    ∀ (rest : List (List Char)) (k : Nat) (st : LineState),
      ls.drop k = rest → k ≤ ls.length → LineInv ls ls.length k st →
      LineInv ls ls.length ls.length (lineLoop c o ls.length k rest st) := by
  intro rest
  induction rest with
  | nil =>
    intro k st hdrop hk h
    have hlen : ls.length - k = 0 := by
      have := congrArg List.length hdrop
      simpa [List.length_drop] using this
    have hkeq : k = ls.length := by omega
    rw [lineLoop]
    exact hkeq ▸ h
  | cons line rest' ih =>
    intro k st hdrop hk h
    have hklt : k < ls.length := by
      have := congrArg List.length hdrop
      simp only [List.length_drop, List.length_cons] at this
      omega
    have hgetk : ls[k]? = some line := by
      have h0 : (ls.drop k)[0]? = some line := by
        rw [hdrop]
        exact List.getElem?_cons_zero
      rw [List.getElem?_drop] at h0
      simpa using h0
    have hdrop' : ls.drop (k + 1) = rest' := by
      have h1 : ls.drop (k + 1) = (ls.drop k).drop 1 := by
        rw [List.drop_drop]
      rw [h1, hdrop]
      rfl
    rw [lineLoop]
    exact ih (k + 1) _ hdrop' (by omega) (lineStep_inv ls c o k line hgetk st h)

/-- Master characterization of line mode: every emitted fragment is a
contiguous block of source lines with exact boundary fields, and every
line index is covered by some emitted fragment. -/
lemma lineChunks_spec (ls : List (List Char)) (c o : Int) :
    (∀ f ∈ (lineChunks ls c o).1, FragOK ls ls.length ls.length f) ∧
      ∀ j : Nat, j < ls.length → ∃ f ∈ (lineChunks ls c o).1, coversLine f (j : Int) = true := by
  have h0 : LineInv ls ls.length 0 ⟨[], [], 0, false⟩ := by
    refine ⟨⟨0, rfl, rfl⟩, rfl, ?_, ⟨0, le_refl _, ?_⟩⟩
    · intro f hf
      exact absurd hf (List.not_mem_nil f)
    · intro j hj
      omega
  have hend := lineLoop_inv ls c o ls 0 ⟨[], [], 0, false⟩ rfl (by omega) h0
  obtain ⟨⟨a, ha, hsl⟩, hlen, hall, ⟨fr, hfrle, hcov⟩⟩ := hend
  unfold lineChunks lineFinal
  split
  case isTrue hne =>
    have hchne : 1 ≤ (lineLoop c o ls.length 0 ls ⟨[], [], 0, false⟩).current_chunk.length := by
      rcases hcc : (lineLoop c o ls.length 0 ls ⟨[], [], 0, false⟩).current_chunk with _ | ⟨x, xs⟩
      · exact absurd hcc hne
      · simp
    constructor
    · intro f hf
      rcases List.mem_append.mp hf with hf | hf
      · exact hall f hf
      · rw [List.mem_singleton] at hf
        subst hf
        refine ⟨a, (lineLoop c o ls.length 0 ls ⟨[], [], 0, false⟩).current_chunk.length,
          hchne, by omega, ?_, ?_, ?_, rfl, rfl, ?_, rfl⟩
        · exact congrArg (fun l => String.mk (joinNLChars l)) hsl
        · show some ((ls.length : Int) - _) = some (a : Int)
          congr 1
          omega
        · show some ((ls.length : Int) - 1) = some _
          congr 1
          omega
        · rw [hlen]
          exact congrArg (fun l => some (sumLens l)) hsl
    · intro j hj
      rcases lt_or_le (j + fr) ls.length with hjf | hjf
      · obtain ⟨f, hmem, hc⟩ := hcov j hjf
        exact ⟨f, List.mem_append_left _ hmem, hc⟩
      · refine ⟨_, List.mem_append_right _ (List.mem_singleton_self _), ?_⟩
        simp only [coversLine]
        rw [Bool.and_eq_true, decide_eq_true_iff, decide_eq_true_iff]
        omega
  case isFalse hne =>
    have hch0 : (lineLoop c o ls.length 0 ls ⟨[], [], 0, false⟩).current_chunk.length = 0 := by
      simp only [not_not] at hne
      rw [hne]
      rfl
    constructor
    · exact hall
    · intro j hj
      exact hcov j (by omega)

lemma get_mem_slice {ls : List (List Char)} {a len j : Nat} (hj : j < ls.length)
    (h1 : a ≤ j) (h2 : j < a + len) : ls.get ⟨j, hj⟩ ∈ (ls.drop a).take len := by
  apply mem_of_getElem?_eq (i := j - a)
  rw [List.getElem?_take_of_lt (by omega), List.getElem?_drop,
    show a + (j - a) = j from by omega, List.getElem?_eq_getElem hj]
  rfl

/-! ### Claim theorems -/

/-- C1 (amended): with `0 < overlap < chunk_size`, the fragments cover
every source-unit index in paragraph mode and in line mode; in character
mode they cover every character offset provided the text contains no
newline (so the boundary-snapping refinement never fires).  The original
claim's assertion that coverage also holds when snapping moves a
fragment's end backward is refuted by `C1_counterexample`. -/
theorem C1_coverage :
    (∀ (ps : List String) (chunk_size overlap : Int), 0 < overlap → overlap < chunk_size →
      ∀ j : Int, 0 ≤ j → j < (ps.length : Int) →
        ∃ f ∈ paragraphChunks ps chunk_size overlap, coversPara f j = true) ∧
    (∀ (cs : List Char) (chunk_size overlap : Int), 0 < overlap → overlap < chunk_size →
      '\n' ∉ cs → ∀ j : Int, 0 ≤ j → j < (cs.length : Int) →
        ∃ f ∈ charChunks cs chunk_size overlap, coversChar f j = true) ∧
    (∀ (ls : List (List Char)) (chunk_size overlap : Int), 0 < overlap → overlap < chunk_size →
      ∀ j : Nat, j < ls.length →
        ∃ f ∈ (lineChunks ls chunk_size overlap).1, coversLine f (j : Int) = true) :=
  ⟨fun ps c o ho hoc j hj0 hjN => para_cover ps c o ho hoc j hj0 hjN,
   fun cs c o ho hoc hnl j hj0 hjN => char_cover_noNL cs c o ho hoc hnl j hj0 hjN,
   fun ls c o _ _ j hj => (lineChunks_spec ls c o).2 j hj⟩

/-- C1 counterexample: `chunk_size = 30`, `overlap = 2`, text of 60
characters with a newline at offset 26.  Snapping moves the first
fragment's end back to 26 while the next stride fragment still starts at
28, so character offset 27 lies in no fragment's range — neither in the
half-open `[start, end)` reading nor in the inclusive `[start, end]`
reading.  This refutes the claim that coverage holds in character mode
even when snapping moves a fragment's end backward. -/
theorem C1_counterexample :
    (27 : Int) < ((List.replicate 26 'a' ++ '\n' :: List.replicate 33 'a').length : Int) ∧
    (charChunks (List.replicate 26 'a' ++ '\n' :: List.replicate 33 'a') 30 2).length = 3 ∧
    ∀ f ∈ charChunks (List.replicate 26 'a' ++ '\n' :: List.replicate 33 'a') 30 2,
      coversChar f 27 = false ∧ coversLine f 27 = false := by
  decide

theorem C1_coverage_witness :
    (∃ f ∈ paragraphChunks ["a", "b", "c"] 2 1, coversPara f 2 = true) ∧
    (∃ f ∈ charChunks ['h', 'i', 'j'] 2 1, coversChar f 2 = true) ∧
    (∃ f ∈ (lineChunks [['a'], ['b']] 2 1).1, coversLine f ((1 : Nat) : Int) = true) :=
  ⟨C1_coverage.1 ["a", "b", "c"] 2 1 (by decide) (by decide) 2 (by decide) (by decide),
   C1_coverage.2.1 ['h', 'i', 'j'] 2 1 (by decide) (by decide) (by decide) 2 (by decide)
     (by decide),
   C1_coverage.2.2 [['a'], ['b']] 2 1 (by decide) (by decide) 1 (by decide)⟩

/-- C10: in line mode individual lines are never subdivided — every
fragment's text is the newline-join of a contiguous block of whole input
lines — and a line longer than `chunk_size` forces the fragment
containing it to have `size` strictly greater than `chunk_size`, so
fragment sizes are not bounded by `chunk_size`. -/
theorem C10_lines_not_subdivided :
    ∀ (ls : List (List Char)) (chunk_size overlap : Int), 0 < chunk_size →
      (∀ f ∈ (lineChunks ls chunk_size overlap).1,
        ∃ a len : Nat, 1 ≤ len ∧ a + len ≤ ls.length ∧
          f.text = String.mk (joinNLChars ((ls.drop a).take len))) ∧
      ∀ j : Nat, ∀ hj : j < ls.length, chunk_size < ((ls.get ⟨j, hj⟩).length : Int) →
        ∃ f ∈ (lineChunks ls chunk_size overlap).1, ∃ s : Int,
          f.size = some s ∧ chunk_size < s ∧
          ∃ a len : Nat, a ≤ j ∧ j < a + len ∧
            f.text = String.mk (joinNLChars ((ls.drop a).take len)) ∧
            f.size = some (sumLens ((ls.drop a).take len)) := by
  intro ls c o _hc
  obtain ⟨hok, hcov⟩ := lineChunks_spec ls c o
  constructor
  · intro f hf
    obtain ⟨a, len, h1, h2, h3, _⟩ := hok f hf
    exact ⟨a, len, h1, h2, h3⟩
  · intro j hj hlong
    obtain ⟨f, hmem, hcstrue⟩ := hcov j hj
    obtain ⟨a, len, h1, h2, htext, hstart, hend, _, _, hsize, _⟩ := hok f hmem
    have hrange : (a : Int) ≤ (j : Int) ∧ (j : Int) ≤ (a : Int) + (len : Int) - 1 := by
      unfold coversLine at hcstrue
      rw [hstart, hend] at hcstrue
      rw [Bool.and_eq_true, decide_eq_true_iff, decide_eq_true_iff] at hcstrue
      exact hcstrue
    have hmemln : ls.get ⟨j, hj⟩ ∈ (ls.drop a).take len :=
      get_mem_slice hj (by omega) (by omega)
    refine ⟨f, hmem, sumLens ((ls.drop a).take len), hsize, ?_,
      a, len, by omega, by omega, htext, hsize⟩
    exact lt_of_lt_of_le hlong (length_le_sumLens hmemln)

theorem C10_witness :
    ∃ f ∈ (lineChunks [['a', 'b', 'c']] 2 1).1, ∃ s : Int,
      f.size = some s ∧ 2 < s ∧
      ∃ a len : Nat, a ≤ 0 ∧ 0 < a + len ∧
        f.text = String.mk (joinNLChars (([['a', 'b', 'c']].drop a).take len)) ∧
        f.size = some (sumLens (([['a', 'b', 'c']].drop a).take len)) :=
  (C10_lines_not_subdivided [['a', 'b', 'c']] 2 1 (by decide)).2 0 (by decide) (by decide)

/-- C4: the quoted line-mode trace.  For `chunk_size = 5`, `overlap = 2`
and lines `ab`, `cd`, `ef`, `gh`, greedy accumulation closes a fragment
exactly when adding the next line would exceed the cap and the chunk is
non-empty, carries `max(1, len*overlap//chunk_size)` lines over, and
emits the final chunk, producing exactly the three fragments
`ab\ncd`, `cd\nef`, `ef\ngh` with the traced boundary indices. -/
theorem C4_line_example :
    split_word_from_doc ["ab", "cd", "ef", "gh"] 5 2 "line" =
      [⟨1, "ab\ncd", some 0, some 1, some 4, some "line", some 4, none⟩,
       ⟨2, "cd\nef", some 1, some 2, some 4, some "line", some 4, none⟩,
       ⟨3, "ef\ngh", some 2, some 3, some 4, some "line", some 4, none⟩] := by
  decide

/-- C7: with `overlap = 12 > chunk_size = 10` on an 8-paragraph
document, the splitter performs no validation (it returns ordinary
content fragments with no error flag) and exhibits backward progress:
the second fragment's `start` is `-1`, strictly less than the first
fragment's `start` of `1`, with overlapping degenerate ranges. -/
theorem C7_no_overlap_validation :
    (split_word_from_doc ["a", "b", "c", "d", "e", "f", "g", "h"] 10 12 "paragraph" =
      [⟨1, "a\nb\nc\nd\ne\nf\ng\nh", some 1, some 8, some 8, some "paragraph", some 8, none⟩,
       ⟨2, "g\nh", some (-1), some 8, some 8, some "paragraph", some 10, none⟩]) ∧
    (∀ f ∈ split_word_from_doc ["a", "b", "c", "d", "e", "f", "g", "h"] 10 12 "paragraph",
      f.error = none) ∧
    ∃ f0 f1 : Fragment,
      (split_word_from_doc ["a", "b", "c", "d", "e", "f", "g", "h"] 10 12 "paragraph")[0]? =
        some f0 ∧
      (split_word_from_doc ["a", "b", "c", "d", "e", "f", "g", "h"] 10 12 "paragraph")[1]? =
        some f1 ∧
      ∃ s0 s1 : Int, f0.start = some s0 ∧ f1.start = some s1 ∧ s1 < s0 := by
  refine ⟨by decide, by decide,
    ⟨1, "a\nb\nc\nd\ne\nf\ng\nh", some 1, some 8, some 8, some "paragraph", some 8, none⟩,
    ⟨2, "g\nh", some (-1), some 8, some 8, some "paragraph", some 10, none⟩,
    by decide, by decide, 1, -1, by decide, by decide, by decide⟩

/-- C2: in paragraph mode each of the `parts = max(1, (N - overlap) //
(chunk_size - overlap))` stride fragments has the claimed formulas
(`start_idx = i*(chunk_size-overlap)`, `end_idx = min(start_idx +
chunk_size, N)`, text the newline-join of `P[start_idx:end_idx]`,
`start = start_idx + 1`, `end = end_idx`, `total = N`,
`size = end_idx - start_idx`), and the `chunk_size=3, overlap=1`,
`P=[a,b,c,d,e]` example returns exactly two fragments covering
paragraphs 1-3 and 3-5 with no remainder fragment. -/
theorem C2_paragraph_formula :
    (∀ (ps : List String) (chunk_size overlap : Int), 0 < overlap → overlap < chunk_size →
      ps ≠ [] →
      ∀ i : Nat,
        (i : Int) < max 1 (((ps.length : Int) - overlap).fdiv (chunk_size - overlap)) →
        (paragraphChunks ps chunk_size overlap)[i]? = some
          ⟨(i : Int) + 1,
            joinNL (pySliceList ps ((i : Int) * (chunk_size - overlap))
              (min ((i : Int) * (chunk_size - overlap) + chunk_size) ps.length)),
            some ((i : Int) * (chunk_size - overlap) + 1),
            some (min ((i : Int) * (chunk_size - overlap) + chunk_size) ps.length),
            some ps.length, some "paragraph",
            some (min ((i : Int) * (chunk_size - overlap) + chunk_size) ps.length -
              (i : Int) * (chunk_size - overlap)), none⟩) ∧
    paragraphChunks ["a", "b", "c", "d", "e"] 3 1 =
      [⟨1, "a\nb\nc", some 1, some 3, some 5, some "paragraph", some 3, none⟩,
       ⟨2, "c\nd\ne", some 3, some 5, some 5, some "paragraph", some 3, none⟩] := by
  constructor
  · intro ps c o _ho _hoc _hne i hi
    apply paragraphChunks_getElem?_lt
    have h1 := one_le_strideParts ps.length c o
    unfold strideParts at h1 ⊢
    omega
  · decide

theorem C2_witness :
    (paragraphChunks ["a", "b"] 2 1)[0]? =
      some ⟨1, "a\nb", some 1, some 2, some 2, some "paragraph", some 2, none⟩ := by
  have h := C2_paragraph_formula.1 ["a", "b"] 2 1 (by decide) (by decide) (by decide) 0
    (by decide)
  rw [h]
  decide

/-- C3: in character mode a stride fragment's `end` is snapped to the
last newline position `p` of the scanned prefix exactly when the
computed `end_idx` falls strictly before `total` and
`p > start_idx + chunk_size*0.8` (modelled exactly as
`5*p > 5*start_idx + 4*chunk_size`); the appended remainder fragment's
`end` is always `total` (never snapped); for newline-free text no
fragment is snapped, and the `chunk_size=10, overlap=2`, 25-character
example yields stride-8 fragments plus a final remainder. -/
theorem C3_char_snapping :
    (∀ (cs : List Char) (chunk_size overlap : Int), 0 < overlap → overlap < chunk_size →
      ∀ i : Nat, (i : Int) < strideParts cs.length chunk_size overlap →
        ∃ f, (charChunks cs chunk_size overlap)[i]? = some f ∧
          f.end_ = some
            (if min ((i : Int) * (chunk_size - overlap) + chunk_size) cs.length <
                (cs.length : Int) then
              if 5 * pyRfind (pySliceList cs 0
                    (min ((i : Int) * (chunk_size - overlap) + chunk_size) cs.length)) '\n' >
                  5 * ((i : Int) * (chunk_size - overlap)) + 4 * chunk_size then
                pyRfind (pySliceList cs 0
                  (min ((i : Int) * (chunk_size - overlap) + chunk_size) cs.length)) '\n'
              else min ((i : Int) * (chunk_size - overlap) + chunk_size) cs.length
            else min ((i : Int) * (chunk_size - overlap) + chunk_size) cs.length)) ∧
    (∀ (cs : List Char) (chunk_size overlap : Int) (f : Fragment),
      (charChunks cs chunk_size overlap)[(strideParts cs.length chunk_size overlap).toNat]? =
          some f →
        f.end_ = some (cs.length : Int)) ∧
    (∀ (cs : List Char) (chunk_size overlap : Int), 0 < overlap → overlap < chunk_size →
      '\n' ∉ cs →
      ∀ i : Nat, (i : Int) < strideParts cs.length chunk_size overlap →
        ∃ f, (charChunks cs chunk_size overlap)[i]? = some f ∧
          f.end_ = some (min ((i : Int) * (chunk_size - overlap) + chunk_size) cs.length)) ∧
    charChunks (List.replicate 25 'a') 10 2 =
      [⟨1, String.mk (List.replicate 10 'a'), some 0, some 10, some 25, some "character",
        some 10, none⟩,
       ⟨2, String.mk (List.replicate 10 'a'), some 8, some 18, some 25, some "character",
        some 10, none⟩,
       ⟨3, String.mk (List.replicate 7 'a'), some 18, some 25, some 25, some "character",
        some 7, none⟩] := by
  refine ⟨?_, ?_, ?_, by decide⟩
  · intro cs c o _ho _hoc i hi
    have h1 := one_le_strideParts cs.length c o
    refine ⟨charFrag cs c o i, charChunks_getElem?_lt cs c o i (by omega), rfl⟩
  · intro cs c o f hf
    unfold charChunks at hf
    split at hf
    · rw [List.getElem?_append_right (by rw [length_charFrags])] at hf
      rw [length_charFrags, Nat.sub_self] at hf
      simp only [List.getElem?_cons_zero, Option.some.injEq] at hf
      rw [← hf]
      rfl
    · have hnone : (charFrags cs c o)[(strideParts cs.length c o).toNat]? = none := by
        apply List.getElem?_eq_none
        rw [length_charFrags]
      rw [hnone] at hf
      exact absurd hf (by simp)
  · intro cs c o ho hoc hnl i hi
    have h1 := one_le_strideParts cs.length c o
    refine ⟨charFrag cs c o i, charChunks_getElem?_lt cs c o i (by omega), ?_⟩
    show some (charEnd cs c o (i : Int)) = _
    rw [charEnd_no_newline c o hnl (mul_nonneg (Int.natCast_nonneg i) (by omega)) (by omega)]

theorem C3_witness :
    (∃ f, (charChunks ['x', 'y', 'z'] 2 1)[0]? = some f ∧ f.end_ = some 2) ∧
    (∀ f : Fragment, (charChunks (List.replicate 25 'a') 10 2)[2]? = some f →
      f.end_ = some 25) ∧
    ∃ f, (charChunks ['x', 'y', 'z'] 2 1)[1]? = some f ∧ f.end_ = some 3 := by
  refine ⟨?_, ?_, ?_⟩
  · obtain ⟨f, hf, he⟩ :=
      C3_char_snapping.1 ['x', 'y', 'z'] 2 1 (by decide) (by decide) 0 (by decide)
    exact ⟨f, hf, by rw [he]; decide⟩
  · intro f hf
    have h25 : ((25 : Int) : Int) = ((List.replicate 25 'a').length : Int) := by decide
    exact h25 ▸ C3_char_snapping.2.1 (List.replicate 25 'a') 10 2 f hf
  · obtain ⟨f, hf, he⟩ :=
      C3_char_snapping.2.2.1 ['x', 'y', 'z'] 2 1 (by decide) (by decide) (by decide) 1
        (by decide)
    exact ⟨f, hf, by rw [he]; decide⟩

/-- C5 counterexample: `chunk_size = 10`, `overlap = 2`, 25 newline-free
characters.  Fragment 1 has `end = 10` and fragment 2 has `start = 8`
(neither is the remainder — there are three fragments), and they differ
by `overlap = 2`, not by `chunk_size - overlap = 8` in either direction.
This refutes the claim that consecutive fragments' `end` and `start`
fields differ by exactly the stride. -/
theorem C5_counterexample :
    ((charChunks (List.replicate 25 'a') 10 2)[0]?).map Fragment.end_ = some (some 10) ∧
    ((charChunks (List.replicate 25 'a') 10 2)[1]?).map Fragment.start = some (some 8) ∧
    (charChunks (List.replicate 25 'a') 10 2).length = 3 ∧
    (10 : Int) - 8 ≠ 10 - 2 ∧ (8 : Int) - 10 ≠ 10 - 2 := by
  decide

/-- C5 (amended): for paragraph and character modes it is the `start`
fields of consecutive stride fragments (any pair not involving the final
remainder fragment) that differ by exactly `chunk_size - overlap`; the
original claim about `end`/`start` differences is refuted by
`C5_counterexample`. -/
theorem C5_stride_invariant :
    (∀ (ps : List String) (chunk_size overlap : Int) (i : Nat),
      ((i : Int) + 1) < strideParts ps.length chunk_size overlap →
      ∃ f g, (paragraphChunks ps chunk_size overlap)[i]? = some f ∧
        (paragraphChunks ps chunk_size overlap)[i + 1]? = some g ∧
        ∃ a b : Int, f.start = some a ∧ g.start = some b ∧
          b - a = chunk_size - overlap) ∧
    (∀ (cs : List Char) (chunk_size overlap : Int) (i : Nat),
      ((i : Int) + 1) < strideParts cs.length chunk_size overlap →
      ∃ f g, (charChunks cs chunk_size overlap)[i]? = some f ∧
        (charChunks cs chunk_size overlap)[i + 1]? = some g ∧
        ∃ a b : Int, f.start = some a ∧ g.start = some b ∧
          b - a = chunk_size - overlap) := by
  constructor
  · intro ps c o i hi
    have h1 := one_le_strideParts ps.length c o
    refine ⟨paraFrag ps c o i, paraFrag ps c o (i + 1),
      paragraphChunks_getElem?_lt ps c o i (by omega),
      paragraphChunks_getElem?_lt ps c o (i + 1) (by omega),
      (i : Int) * (c - o) + 1, ((i + 1 : Nat) : Int) * (c - o) + 1, rfl, rfl, ?_⟩
    push_cast
    ring
  · intro cs c o i hi
    have h1 := one_le_strideParts cs.length c o
    refine ⟨charFrag cs c o i, charFrag cs c o (i + 1),
      charChunks_getElem?_lt cs c o i (by omega),
      charChunks_getElem?_lt cs c o (i + 1) (by omega),
      (i : Int) * (c - o), ((i + 1 : Nat) : Int) * (c - o), rfl, rfl, ?_⟩
    push_cast
    ring

theorem C5_witness :
    (∃ f g, (paragraphChunks ["a", "b", "c", "d", "e"] 3 1)[0]? = some f ∧
      (paragraphChunks ["a", "b", "c", "d", "e"] 3 1)[0 + 1]? = some g ∧
      ∃ a b : Int, f.start = some a ∧ g.start = some b ∧ b - a = 3 - 1) ∧
    ∃ f g, (charChunks (List.replicate 25 'a') 10 2)[0]? = some f ∧
      (charChunks (List.replicate 25 'a') 10 2)[0 + 1]? = some g ∧
      ∃ a b : Int, f.start = some a ∧ g.start = some b ∧ b - a = 10 - 2 :=
  ⟨C5_stride_invariant.1 ["a", "b", "c", "d", "e"] 3 1 0 (by decide),
   C5_stride_invariant.2 (List.replicate 25 'a') 10 2 0 (by decide)⟩

/-- C6 counterexample: three paragraphs, `chunk_size = 5`, `overlap = 1`:
`(N - overlap) % (chunk_size - overlap) = 2 % 4 ≠ 0`, yet the result is a
single stride fragment with no remainder fragment appended (because
`N ≤ chunk_size` makes the one stride fragment reach `N`).  This refutes
the claim that a nonzero remainder modulus always forces an extra
fragment. -/
theorem C6_counterexample :
    (((["a", "b", "c"].length : Int) - 1) % (5 - 1) ≠ 0) ∧
    paragraphChunks ["a", "b", "c"] 5 1 =
      [⟨1, "a\nb\nc", some 1, some 3, some 3, some "paragraph", some 3, none⟩] := by
  decide

lemma paraLastEnd_lt (N c o : Int) (_ho : 0 < o) (hoc : o < c) (hcN : c < N)
    (hmod : (N - o) % (c - o) ≠ 0) :
    paraLastEnd N c o < N ∧
      paraLastEnd N c o = (strideParts N c o - 1) * (c - o) + c := by
  have hS : 0 < c - o := by omega
  have hq := Int.ediv_add_emod (N - o) (c - o)
  have hr0 : 0 ≤ (N - o) % (c - o) := Int.emod_nonneg _ (by omega)
  have hrS : (N - o) % (c - o) < c - o := Int.emod_lt_of_pos _ hS
  have hNo : c - o < N - o := by omega
  have hq1 : 1 ≤ (N - o) / (c - o) := by
    by_contra hq1
    push_neg at hq1
    have : (c - o) * ((N - o) / (c - o)) ≤ 0 :=
      mul_nonpos_of_nonneg_of_nonpos (by omega) (by omega)
    linarith
  have hparts : strideParts N c o = (N - o) / (c - o) := by
    unfold strideParts
    rw [Int.fdiv_eq_ediv _ (by omega : (0 : Int) ≤ c - o)]
    exact max_eq_right hq1
  have hval : (strideParts N c o - 1) * (c - o) + c =
      (c - o) * ((N - o) / (c - o)) + o := by
    rw [hparts]
    ring
  have hle : (c - o) * ((N - o) / (c - o)) + o ≤ N := by
    linarith
  have hlt : (c - o) * ((N - o) / (c - o)) + o < N := by
    rcases lt_or_eq_of_le hr0 with h | h
    · linarith
    · exact absurd h.symm hmod
  constructor
  · unfold paraLastEnd
    rw [hval]
    omega
  · unfold paraLastEnd
    rw [hval]
    omega

lemma charLastEnd_lt (cs : List Char) (c o : Int) (ho : 0 < o) (hoc : o < c)
    (hcN : c < (cs.length : Int)) (hmod : ((cs.length : Int) - o) % (c - o) ≠ 0) :
    charLastEnd cs c o < (cs.length : Int) := by
  obtain ⟨hlt, hval⟩ := paraLastEnd_lt cs.length c o ho hoc hcN hmod
  have h1 := one_le_strideParts cs.length c o
  have he0 : (0 : Int) ≤ (strideParts cs.length c o - 1) * (c - o) + c :=
    add_nonneg (mul_nonneg (by omega) (by omega)) (by omega)
  unfold charLastEnd charEnd
  have hmincond : min ((strideParts cs.length c o - 1) * (c - o) + c) (cs.length : Int) <
      (cs.length : Int) := by
    unfold paraLastEnd at hlt
    exact hlt
  rw [if_pos hmincond]
  split
  · set e := min ((strideParts cs.length c o - 1) * (c - o) + c) (cs.length : Int) with hedef
    have hrf := pyRfind_lt_length (pySliceList cs 0 e) '\n'
    have hlen2 : ((pySliceList cs 0 e).length : Int) ≤ e := by
      rw [pySliceList_zero cs e (by omega), List.length_take]
      push_cast
      omega
    omega
  · exact hmincond

/-- C6 (amended, adding the hypothesis `chunk_size < N` which the
counterexample `C6_counterexample` shows is necessary): in paragraph and
character modes, when `(N - overlap) % (chunk_size - overlap) ≠ 0` the
result consists of the stride fragments followed by exactly one extra
remainder fragment whose range runs from the last stride fragment's
(possibly snapped) `end` up to `N`. -/
theorem C6_remainder :
    (∀ (ps : List String) (chunk_size overlap : Int), 0 < overlap → overlap < chunk_size →
      chunk_size < (ps.length : Int) →
      ((ps.length : Int) - overlap) % (chunk_size - overlap) ≠ 0 →
      ∃ e : Int, e < (ps.length : Int) ∧
        (paragraphChunks ps chunk_size overlap).length =
          (strideParts ps.length chunk_size overlap).toNat + 1 ∧
        (∀ f, (paragraphChunks ps chunk_size overlap)[
            (strideParts ps.length chunk_size overlap).toNat - 1]? = some f →
          f.end_ = some e) ∧
        (paragraphChunks ps chunk_size overlap)[
            (strideParts ps.length chunk_size overlap).toNat]? = some
          ⟨strideParts ps.length chunk_size overlap + 1,
            joinNL (pySliceList ps e ps.length), some (e + 1), some ps.length,
            some ps.length, some "paragraph", some ((ps.length : Int) - e), none⟩) ∧
    (∀ (cs : List Char) (chunk_size overlap : Int), 0 < overlap → overlap < chunk_size →
      chunk_size < (cs.length : Int) →
      ((cs.length : Int) - overlap) % (chunk_size - overlap) ≠ 0 →
      ∃ e : Int, e < (cs.length : Int) ∧
        (charChunks cs chunk_size overlap).length =
          (strideParts cs.length chunk_size overlap).toNat + 1 ∧
        (∀ f, (charChunks cs chunk_size overlap)[
            (strideParts cs.length chunk_size overlap).toNat - 1]? = some f →
          f.end_ = some e) ∧
        (charChunks cs chunk_size overlap)[
            (strideParts cs.length chunk_size overlap).toNat]? = some
          ⟨strideParts cs.length chunk_size overlap + 1,
            String.mk (pySliceList cs e cs.length), some e, some cs.length,
            some cs.length, some "character", some ((cs.length : Int) - e), none⟩) := by
  constructor
  · intro ps c o ho hoc hcN hmod
    obtain ⟨hlt, hval⟩ := paraLastEnd_lt ps.length c o ho hoc hcN hmod
    have h1 := one_le_strideParts ps.length c o
    refine ⟨paraLastEnd ps.length c o, hlt, ?_, ?_, ?_⟩
    · unfold paragraphChunks
      rw [if_pos hlt, List.length_append, length_paraFrags]
      rfl
    · intro f hf
      rw [paragraphChunks_getElem?_lt ps c o _ (by omega)] at hf
      simp only [Option.some.injEq] at hf
      rw [← hf]
      have hcast : ((((strideParts ps.length c o).toNat - 1 : Nat)) : Int) =
          strideParts ps.length c o - 1 := by omega
      show some (min (((((strideParts ps.length c o).toNat - 1 : Nat)) : Int) * (c - o) + c)
        (ps.length : Int)) = some (paraLastEnd ps.length c o)
      rw [hcast]
      rfl
    · unfold paragraphChunks
      rw [if_pos hlt,
        List.getElem?_append_right (by rw [length_paraFrags]),
        length_paraFrags, Nat.sub_self]
      simp only [List.getElem?_cons_zero, Option.some.injEq]
      unfold paraRemFrag
      congr 1
      rw [length_paraFrags]
      omega
  · intro cs c o ho hoc hcN hmod
    have hlt := charLastEnd_lt cs c o ho hoc hcN hmod
    have h1 := one_le_strideParts cs.length c o
    refine ⟨charLastEnd cs c o, hlt, ?_, ?_, ?_⟩
    · unfold charChunks
      rw [if_pos hlt, List.length_append, length_charFrags]
      rfl
    · intro f hf
      rw [charChunks_getElem?_lt cs c o _ (by omega)] at hf
      simp only [Option.some.injEq] at hf
      rw [← hf]
      have hcast : ((((strideParts cs.length c o).toNat - 1 : Nat)) : Int) =
          strideParts cs.length c o - 1 := by omega
      show some (charEnd cs c o ((((strideParts cs.length c o).toNat - 1 : Nat)) : Int)) =
        some (charLastEnd cs c o)
      rw [hcast]
      rfl
    · unfold charChunks
      rw [if_pos hlt,
        List.getElem?_append_right (by rw [length_charFrags]),
        length_charFrags, Nat.sub_self]
      simp only [List.getElem?_cons_zero, Option.some.injEq]
      unfold charRemFrag
      congr 1
      rw [length_charFrags]
      omega

theorem C6_witness :
    (∃ e : Int, e < ((["a", "b", "c", "d"] : List String).length : Int) ∧
      (paragraphChunks ["a", "b", "c", "d"] 3 1).length =
        (strideParts (["a", "b", "c", "d"] : List String).length 3 1).toNat + 1 ∧
      (∀ f, (paragraphChunks ["a", "b", "c", "d"] 3 1)[
          (strideParts (["a", "b", "c", "d"] : List String).length 3 1).toNat - 1]? = some f →
        f.end_ = some e) ∧
      (paragraphChunks ["a", "b", "c", "d"] 3 1)[
          (strideParts (["a", "b", "c", "d"] : List String).length 3 1).toNat]? = some
        ⟨strideParts (["a", "b", "c", "d"] : List String).length 3 1 + 1,
          joinNL (pySliceList ["a", "b", "c", "d"] e (["a", "b", "c", "d"] : List String).length),
          some (e + 1), some (["a", "b", "c", "d"] : List String).length,
          some (["a", "b", "c", "d"] : List String).length, some "paragraph",
          some (((["a", "b", "c", "d"] : List String).length : Int) - e), none⟩) ∧
    ∃ e : Int, e < ((['a', 'b', 'c', 'd'] : List Char).length : Int) ∧
      (charChunks ['a', 'b', 'c', 'd'] 3 1).length =
        (strideParts (['a', 'b', 'c', 'd'] : List Char).length 3 1).toNat + 1 ∧
      (∀ f, (charChunks ['a', 'b', 'c', 'd'] 3 1)[
          (strideParts (['a', 'b', 'c', 'd'] : List Char).length 3 1).toNat - 1]? = some f →
        f.end_ = some e) ∧
      (charChunks ['a', 'b', 'c', 'd'] 3 1)[
          (strideParts (['a', 'b', 'c', 'd'] : List Char).length 3 1).toNat]? = some
        ⟨strideParts (['a', 'b', 'c', 'd'] : List Char).length 3 1 + 1,
          String.mk (pySliceList ['a', 'b', 'c', 'd'] e (['a', 'b', 'c', 'd'] : List Char).length),
          some e, some (['a', 'b', 'c', 'd'] : List Char).length,
          some (['a', 'b', 'c', 'd'] : List Char).length, some "character",
          some (((['a', 'b', 'c', 'd'] : List Char).length : Int) - e), none⟩ :=
  ⟨C6_remainder.1 ["a", "b", "c", "d"] 3 1 (by decide) (by decide) (by decide) (by decide),
   C6_remainder.2 ['a', 'b', 'c', 'd'] 3 1 (by decide) (by decide) (by decide) (by decide)⟩

lemma pyStrip_eq_nil {l : List Char} (h : ∀ ch ∈ l, ch.isWhitespace) : pyStrip l = [] := by
  unfold pyStrip
  rw [List.dropWhile_eq_nil_iff.mpr h]
  rfl

lemma mem_joinNLChars {ch : Char} :
    ∀ {lls : List (List Char)}, ch ∈ joinNLChars lls → ch = '\n' ∨ ∃ l ∈ lls, ch ∈ l := by
  intro lls
  induction lls with
  | nil =>
    intro h
    exact absurd h (List.not_mem_nil _)
  | cons l rest ih =>
    cases rest with
    | nil =>
      intro h
      exact Or.inr ⟨l, List.mem_cons_self l [], h⟩
    | cons l2 rest2 =>
      intro h
      rw [show joinNLChars (l :: l2 :: rest2) = l ++ '\n' :: joinNLChars (l2 :: rest2)
        from rfl] at h
      rcases List.mem_append.mp h with h | h
      · exact Or.inr ⟨l, List.mem_cons_self _ _, h⟩
      · rcases List.mem_cons.mp h with h | h
        · exact Or.inl h
        · rcases ih h with h | ⟨l3, hl3, hch⟩
          · exact Or.inl h
          · exact Or.inr ⟨l3, List.mem_cons_of_mem _ hl3, hch⟩

lemma pyStrip_charUnits_eq_nil {doc : List String}
    (h : ∀ p ∈ doc, ∀ ch ∈ p.data, ch.isWhitespace) :
    pyStrip (charUnits doc) = [] := by
  apply pyStrip_eq_nil
  intro ch hch
  rcases mem_joinNLChars hch with h1 | ⟨l, hl, hch2⟩
  · subst h1
    decide
  · rw [List.mem_map] at hl
    obtain ⟨p, hp, rfl⟩ := hl
    exact h p hp ch hch2

lemma paraUnits_eq_nil {doc : List String}
    (h : ∀ p ∈ doc, ∀ ch ∈ p.data, ch.isWhitespace) : paraUnits doc = [] := by
  unfold paraUnits
  have hfil : doc.filter (fun p => pyStrip p.data ≠ []) = [] := by
    rw [List.filter_eq_nil_iff]
    intro p hp
    simp only [ne_eq, decide_not, Bool.not_eq_true', decide_eq_false_iff_not, not_not]
    exact pyStrip_eq_nil (h p hp)
  rw [hfil]
  rfl

/-- C8: for every `chunk_size`, `overlap` and valid mode, a document
whose content is empty or whitespace-only yields exactly the single
neutral fragment `{id: 0, text: "文档无有效内容", start: 0, end: 0}` with
no error flag. -/
theorem C8_empty_document :
    ∀ (doc : List String) (chunk_size overlap : Int) (mode : String),
      (pyLower mode = "paragraph" ∨ pyLower mode = "character" ∨ pyLower mode = "line") →
      (∀ p ∈ doc, ∀ ch ∈ p.data, ch.isWhitespace) →
      split_word_from_doc doc chunk_size overlap mode =
        [⟨0, "文档无有效内容", some 0, some 0, none, none, none, none⟩] := by
  intro doc c o mode hmode hws
  unfold split_word_from_doc
  rcases hmode with h | h | h
  · rw [if_pos h, if_pos (paraUnits_eq_nil hws)]
    rfl
  · rw [if_neg (by rw [h]; decide), if_pos h, if_pos (pyStrip_charUnits_eq_nil hws)]
    rfl
  · rw [if_neg (by rw [h]; decide), if_neg (by rw [h]; decide), if_pos h,
      if_pos (pyStrip_charUnits_eq_nil hws)]
    rfl

theorem C8_witness :
    split_word_from_doc ["  ", ""] 7 9 "LINE" =
      [⟨0, "文档无有效内容", some 0, some 0, none, none, none, none⟩] :=
  C8_empty_document ["  ", ""] 7 9 "LINE" (by decide) (by decide)

/-- C9: the mode string is compared case-insensitively against the three
valid modes; any other mode yields exactly one fragment with
`error = true` whose text embeds the offending mode string and names all
three valid modes (`paragraph`, `character`, `line`). -/
theorem C9_invalid_mode :
    ∀ (doc : List String) (chunk_size overlap : Int) (mode : String),
      pyLower mode ≠ "paragraph" → pyLower mode ≠ "character" → pyLower mode ≠ "line" →
      split_word_from_doc doc chunk_size overlap mode =
        [⟨0, invalidModePre ++ mode ++ invalidModePost, none, none, none, none, none,
          some true⟩] ∧
      ∃ pre post : List Char,
        (invalidModePre ++ mode ++ invalidModePost).data = pre ++ mode.data ++ post ∧
        (∃ x y : List Char, pre ++ mode.data ++ post = x ++ "paragraph".data ++ y) ∧
        (∃ x y : List Char, pre ++ mode.data ++ post = x ++ "character".data ++ y) ∧
        ∃ x y : List Char, pre ++ mode.data ++ post = x ++ "line".data ++ y := by
  intro doc c o mode h1 h2 h3
  constructor
  · unfold split_word_from_doc
    rw [if_neg h1, if_neg h2, if_neg h3]
    rfl
  · refine ⟨invalidModePre.data, invalidModePost.data, ?_, ?_, ?_, ?_⟩
    · rw [String.data_append, String.data_append]
    · refine ⟨invalidModePre.data ++ mode.data ++ "。请使用 '".data,
        "', 'character' 或 'line'。".data, ?_⟩
      have hpost : invalidModePost.data =
          "。请使用 '".data ++ ("paragraph".data ++ "', 'character' 或 'line'。".data) := by
        decide
      rw [hpost]
      simp [List.append_assoc]
    · refine ⟨invalidModePre.data ++ mode.data ++ "。请使用 'paragraph', '".data,
        "' 或 'line'。".data, ?_⟩
      have hpost : invalidModePost.data =
          "。请使用 'paragraph', '".data ++ ("character".data ++ "' 或 'line'。".data) := by
        decide
      rw [hpost]
      simp [List.append_assoc]
    · refine ⟨invalidModePre.data ++ mode.data ++ "。请使用 'paragraph', 'character' 或 '".data,
        "'。".data, ?_⟩
      have hpost : invalidModePost.data =
          "。请使用 'paragraph', 'character' 或 '".data ++ ("line".data ++ "'。".data) := by
        decide
      rw [hpost]
      simp [List.append_assoc]

theorem C9_witness :
    (split_word_from_doc ["x"] 500 50 "sentence" =
      [⟨0, invalidModePre ++ "sentence" ++ invalidModePost, none, none, none, none, none,
        some true⟩]) ∧
    ∃ pre post : List Char,
      (invalidModePre ++ "sentence" ++ invalidModePost).data =
        pre ++ "sentence".data ++ post ∧
      (∃ x y : List Char, pre ++ "sentence".data ++ post = x ++ "paragraph".data ++ y) ∧
      (∃ x y : List Char, pre ++ "sentence".data ++ post = x ++ "character".data ++ y) ∧
      ∃ x y : List Char, pre ++ "sentence".data ++ post = x ++ "line".data ++ y :=
  C9_invalid_mode ["x"] 500 50 "sentence" (by decide) (by decide) (by decide)

end WordSplit
